import Mathlib

/-!
# Verification of `packages/remote-config/src/storage/storage.ts`

Shallow embedding of the Remote Config storage module of the firebase-js-sdk
repository.  JavaScript objects used as string-keyed maps are embedded as
association lists (`List (String × _)`); property access is first-match
lookup, and object spread is modelled entry by entry.  The asynchronous
storage backends are embedded as explicit state-passing functions; a thrown
exception is an `Except.error` result that leaves the state component
unchanged (the translation preserves the order of reads, validation and
writes of the source, so "state unchanged on error" reflects that no write
is executed before the throw).  JavaScript numbers occurring as custom
signal values are embedded as integers, with `toString` as their decimal
string representation.
-/

/-- A custom signal value: the TypeScript type `CustomSignals` maps signal
names to `string | number | null`. -/
inductive SignalValue where
  | str (s : String)
  | num (n : Int)
  | null
deriving DecidableEq, Repr

/-- A `CustomSignals` object: a JavaScript object with string keys and
`SignalValue` values, embedded as an association list. -/
abbrev SignalMap : Type := List (String × SignalValue)

/-- JavaScript property read `m[k]` on an object embedded as an association
list: the first entry with key `k`, if any. -/
def sigLookup : SignalMap → String → Option SignalValue
  | [], _ => none
  | (k, v) :: rest, key => if k = key then some v else sigLookup rest key

/-- The keys of a signal map, in entry order (`Object.keys`). -/
def sigKeys (m : SignalMap) : List String := m.map Prod.fst

/-- A JavaScript object produced from object literals has no duplicate
keys; association lists embedding such objects satisfy this predicate. -/
def keysNodup (m : SignalMap) : Prop := (sigKeys m).Nodup

instance (m : SignalMap) : Decidable (keysNodup m) :=
  inferInstanceAs (Decidable (sigKeys m).Nodup)

/-- The test `v !== null` as a Boolean predicate on signal values. -/
def SignalValue.isNull : SignalValue → Bool
  | SignalValue.null => true
  | _ => false

/-- The per-value normalization of `mergeCustomSignals`: numbers are
replaced by `v.toString()`, other values are kept. -/
def stringifyValue : SignalValue → SignalValue
  | SignalValue.num n => SignalValue.str (toString n)
  | v => v

/-- The object spread `{...storedSignals, ...customSignals}` from
`mergeCustomSignals`: keys of `storedSignals` keep their position with the
value overridden by `customSignals` when present, followed by the keys of
`customSignals` that are absent from `storedSignals`, in order. -/
def jsSpread (storedSignals customSignals : SignalMap) : SignalMap :=
  storedSignals.map (fun kv =>
    match sigLookup customSignals kv.1 with
    | some v => (kv.1, v)
    | none => kv)
  ++ customSignals.filter (fun kv => (sigLookup storedSignals kv.1).isNone)

/-- The error codes raised by this module (`ErrorCode` in `errors.ts`);
only the custom-signal limit error can arise in the pure embedding. -/
inductive RcError where
  | customSignalMax (maxSignals : Nat)
  | storageOpen
  | storageGet
  | storageSet
  | storageDelete
deriving DecidableEq, Repr

/-- Modelled from the spec: the constant `RC_CUSTOM_SIGNAL_MAX_ALLOWED_SIGNALS`
is declared in `src/constants.ts`, a file of this repository that is not part
of the provided sources; the spec describes it as a fixed maximum signal
count, e.g. 100.  No theorem below depends on its particular value. -/
def RC_CUSTOM_SIGNAL_MAX_ALLOWED_SIGNALS : Nat := 100

/-- The function `mergeCustomSignals(customSignals, storedSignals)` from `storage.ts`:
spread stored then new signals, drop null-valued entries, stringify numeric
values, and fail when the resulting entry count exceeds the limit. -/
def mergeCustomSignals (customSignals storedSignals : SignalMap) :
    Except RcError SignalMap :=
  let combinedSignals := jsSpread storedSignals customSignals
  let updatedSignals :=
    (combinedSignals.filter (fun kv => !(SignalValue.isNull kv.2))).map
      (fun kv => (kv.1, stringifyValue kv.2))
  if RC_CUSTOM_SIGNAL_MAX_ALLOWED_SIGNALS < updatedSignals.length then
    Except.error (RcError.customSignalMax RC_CUSTOM_SIGNAL_MAX_ALLOWED_SIGNALS)
  else
    Except.ok updatedSignals

/-- The entry count of the merged, null-filtered signal set: the quantity
whose comparison with the limit decides success of `mergeCustomSignals`
(the stringification step preserves the count). -/
def mergedSignalCount (customSignals storedSignals : SignalMap) : Nat :=
  ((jsSpread storedSignals customSignals).filter
    (fun kv => !(SignalValue.isNull kv.2))).length

/-- The lookup behaviour the spec ascribes to the merge result: overlay new
onto stored with new winning, drop nulls, stringify numbers.  Stated per
key, from the words of the spec, for comparison with `mergeCustomSignals`. -/
def mergeLookupSpec (customSignals storedSignals : SignalMap) (k : String) :
    Option SignalValue :=
  match (match sigLookup customSignals k with
         | some v => some v
         | none => sigLookup storedSignals k) with
  | some SignalValue.null => none
  | some (SignalValue.num n) => some (SignalValue.str (toString n))
  | v => v

/-- The closed field enumeration `ProjectNamespaceKeyFieldValue`. -/
inductive FieldKey where
  | active_config
  | active_config_etag
  | last_fetch_status
  | last_successful_fetch_timestamp_millis
  | last_successful_fetch_response
  | settings
  | throttle_metadata
  | custom_signals
deriving DecidableEq, Repr

/-- The string literal denoted by each member of the field union type. -/
def fieldStr : FieldKey → String
  | FieldKey.active_config => "active_config"
  | FieldKey.active_config_etag => "active_config_etag"
  | FieldKey.last_fetch_status => "last_fetch_status"
  | FieldKey.last_successful_fetch_timestamp_millis =>
      "last_successful_fetch_timestamp_millis"
  | FieldKey.last_successful_fetch_response => "last_successful_fetch_response"
  | FieldKey.settings => "settings"
  | FieldKey.throttle_metadata => "throttle_metadata"
  | FieldKey.custom_signals => "custom_signals"

/-- The universe of storable JavaScript values used by this module: the
stores are maps from keys to `unknown`, so a value is a string, a number, a
custom-signal map, or a structured object (covering `FetchResponse`,
`FirebaseRemoteConfigObject` and `ThrottleMetadata` records). -/
inductive StorageValue where
  | str (s : String)
  | num (n : Int)
  | signals (m : List (String × SignalValue))
  | obj (fields : List (String × StorageValue))

/-- The expression `storedSignals || \x7b\x7d`: a stored custom-signal value decoded for the
merge; an absent value yields the empty map.  A non-map value under the
`custom_signals` key cannot arise through `setCustomSignals`. -/
def storedSignalsOf : Option StorageValue → SignalMap
  | some (StorageValue.signals m) => m
  | _ => []

/-- The state of `InMemoryStorage.storage`: a mapping from field keys to
optionally present values (`delete` assigns `undefined`, which is
indistinguishable from absence through `get`). -/
abbrev MemState : Type := FieldKey → Option StorageValue

/-- A fresh `InMemoryStorage` instance: the empty object `{}`. -/
def memInit : MemState := fun _ => none

/-- Method `InMemoryStorage.get`: returns `this.storage[key]`. -/
def InMemoryStorage.get (st : MemState) (key : FieldKey) : Option StorageValue :=
  st key

/-- Method `InMemoryStorage.set`: assigns `this.storage[key] = value`. -/
def InMemoryStorage.set (st : MemState) (key : FieldKey) (value : StorageValue) :
    MemState :=
  fun k => if k = key then some value else st k

/-- Method `InMemoryStorage.delete`: assigns `this.storage[key] = undefined`. -/
def InMemoryStorage.delete (st : MemState) (key : FieldKey) : MemState :=
  fun k => if k = key then none else st k

/-- Accessor `Storage.getCustomSignals` on the volatile backend:
reads the custom_signals field via the generic getter. -/
def InMemoryStorage.getCustomSignals (st : MemState) : Option StorageValue :=
  InMemoryStorage.get st FieldKey.custom_signals

/-- Method `InMemoryStorage.setCustomSignals`: read the stored signals (or the empty map),
merge, and store the result; a merge error propagates before the
assignment, leaving the state unchanged. -/
def InMemoryStorage.setCustomSignals (st : MemState) (customSignals : SignalMap) :
    MemState × Except RcError SignalMap :=
  let storedSignals := storedSignalsOf (st FieldKey.custom_signals)
  match mergeCustomSignals customSignals storedSignals with
  | Except.error e => (st, Except.error e)
  | Except.ok merged =>
      (InMemoryStorage.set st FieldKey.custom_signals (StorageValue.signals merged),
       Except.ok merged)

/-- Semantics of `Array.prototype.join()` with the default separator: elements joined
with a comma. -/
def joinComma : List String → String
  | [] => ""
  | [a] => a
  | a :: rest => a ++ "," ++ joinComma rest

/-- An `IndexedDbStorage` instance: its segmentation parameters.  The
source field `namespace` is a reserved word in Lean and is embedded as
`nsName`. -/
structure IndexedDbStorage where
  appId : String
  appName : String
  nsName : String

/-- The contents of the `app_namespace_store` object store: records
`{ compositeKey, value }` keyed by `compositeKey`, embedded as a map from
composite key strings to optionally present values. -/
abbrev DbState : Type := String → Option StorageValue

/-- The object store of a freshly created database (version 0 → 1 upgrade
creates it empty). -/
def dbInit : DbState := fun _ => none

/-- Method `IndexedDbStorage.createCompositeKey`:
`[this.appId, this.appName, this.namespace, key].join()`. -/
def IndexedDbStorage.createCompositeKey (s : IndexedDbStorage) (key : FieldKey) :
    String :=
  joinComma [s.appId, s.appName, s.nsName, fieldStr key]

/-- Method `IndexedDbStorage.getWithTransaction` (also the body of `get`): point
lookup of the record under the composite key of the instance; an absent record
resolves to `undefined`. -/
def IndexedDbStorage.getWithTransaction (s : IndexedDbStorage) (db : DbState)
    (key : FieldKey) : Option StorageValue :=
  db (s.createCompositeKey key)

/-- Method `IndexedDbStorage.setWithTransaction` (also the body of `set`):
`objectStore.put({ compositeKey, value })` inserts or replaces the record
under the composite key. -/
def IndexedDbStorage.setWithTransaction (s : IndexedDbStorage) (db : DbState)
    (key : FieldKey) (value : StorageValue) : DbState :=
  fun k => if k = s.createCompositeKey key then some value else db k

/-- Method `IndexedDbStorage.delete`: `objectStore.delete(compositeKey)`. -/
def IndexedDbStorage.delete (s : IndexedDbStorage) (db : DbState)
    (key : FieldKey) : DbState :=
  fun k => if k = s.createCompositeKey key then none else db k

/-- Accessor `Storage.getCustomSignals` on the persistent backend. -/
def IndexedDbStorage.getCustomSignals (s : IndexedDbStorage) (db : DbState) :
    Option StorageValue :=
  s.getWithTransaction db FieldKey.custom_signals

/-- Method `IndexedDbStorage.setCustomSignals`: within one read-write transaction,
read the stored signals (or `{}`), merge, and write the result; a merge
error propagates before the write, leaving the store unchanged. -/
def IndexedDbStorage.setCustomSignals (s : IndexedDbStorage) (db : DbState)
    (customSignals : SignalMap) : DbState × Except RcError SignalMap :=
  let storedSignals := s.getWithTransaction db FieldKey.custom_signals
  match mergeCustomSignals customSignals (storedSignalsOf storedSignals) with
  | Except.error e => (db, Except.error e)
  | Except.ok updatedSignals =>
      (s.setWithTransaction db FieldKey.custom_signals
        (StorageValue.signals updatedSignals),
       Except.ok updatedSignals)

/-- A string free of the delimiter that `join()` inserts between the
composite key components. -/
def commaFree (s : String) : Prop := ',' ∉ s.data

instance (s : String) : Decidable (commaFree s) :=
  inferInstanceAs (Decidable (',' ∉ s.data))

/-- An example signal map with one entry more than the allowed maximum:
distinct keys "0", "1", ..., all mapped to a string value. -/
def overLimitSignals : SignalMap :=
  (List.range (RC_CUSTOM_SIGNAL_MAX_ALLOWED_SIGNALS + 1)).map
    (fun i => (toString i, SignalValue.str "v"))

/-! ## Lookup lemmas for the association-list embedding of objects -/

/-- Lookup in a concatenation searches the left part first. -/
theorem sigLookup_append (A B : SignalMap) (k : String) :
    sigLookup (A ++ B) k =
      match sigLookup A k with
      | some v => some v
      | none => sigLookup B k := by
  induction A with
  | nil => rfl
  | cons kv rest ih =>
    obtain ⟨k1, v1⟩ := kv
    by_cases h : k1 = k
    · simp [sigLookup, h]
    · simp [sigLookup, h, ih]

/-- Lookup in the overriding pass of the spread: keys of the stored map,
values taken from the new map when present. -/
theorem sigLookup_overlayMap (customSignals storedSignals : SignalMap)
    (k : String) :
    sigLookup (storedSignals.map (fun kv =>
      match sigLookup customSignals kv.1 with
      | some v => (kv.1, v)
      | none => kv)) k =
    match sigLookup storedSignals k with
    | none => none
    | some v =>
        match sigLookup customSignals k with
        | some w => some w
        | none => some v := by
  induction storedSignals with
  | nil => rfl
  | cons kv rest ih =>
    obtain ⟨k1, v1⟩ := kv
    by_cases h : k1 = k
    · subst h
      cases hc : sigLookup customSignals k1 <;> simp [sigLookup, hc]
    · cases hc : sigLookup customSignals k1 <;>
        simp [sigLookup, h, hc, ih]

/-- Lookup in the appended pass of the spread: entries of the new map whose
key is absent from the stored map. -/
theorem sigLookup_filterAbsent (customSignals storedSignals : SignalMap)
    (k : String) :
    sigLookup (customSignals.filter
      (fun kv => (sigLookup storedSignals kv.1).isNone)) k =
    match sigLookup storedSignals k with
    | some _ => none
    | none => sigLookup customSignals k := by
  induction customSignals with
  | nil => cases sigLookup storedSignals k <;> rfl
  | cons kv rest ih =>
    obtain ⟨k1, v1⟩ := kv
    by_cases h : k1 = k
    · subst h
      cases hs : sigLookup storedSignals k1 <;>
        simp [List.filter_cons, sigLookup, hs, ih]
    · cases hs : sigLookup storedSignals k1 <;>
      cases hs2 : sigLookup storedSignals k <;>
        simp [List.filter_cons, sigLookup, hs, hs2, h, ih]

/-- Lookup in the object spread `{...stored, ...new}`: the new map wins on
key collision, the stored map answers otherwise. -/
theorem sigLookup_jsSpread (storedSignals customSignals : SignalMap)
    (k : String) :
    sigLookup (jsSpread storedSignals customSignals) k =
    match sigLookup customSignals k with
    | some v => some v
    | none => sigLookup storedSignals k := by
  unfold jsSpread
  rw [sigLookup_append, sigLookup_overlayMap, sigLookup_filterAbsent]
  cases hs : sigLookup storedSignals k <;>
    cases hc : sigLookup customSignals k <;> simp

/-- The overriding pass of the spread preserves the key sequence. -/
theorem sigKeys_overlayMap (customSignals storedSignals : SignalMap) :
    sigKeys (storedSignals.map (fun kv =>
      match sigLookup customSignals kv.1 with
      | some v => (kv.1, v)
      | none => kv)) = sigKeys storedSignals := by
  induction storedSignals with
  | nil => rfl
  | cons kv rest ih =>
    obtain ⟨k1, v1⟩ := kv
    cases hc : sigLookup customSignals k1 <;> simp [sigKeys, hc] at ih ⊢ <;>
      exact ih

/-- A key is absent from a map exactly when its lookup fails. -/
theorem sigLookup_eq_none_iff (m : SignalMap) (k : String) :
    sigLookup m k = none ↔ k ∉ sigKeys m := by
  induction m with
  | nil => simp [sigLookup, sigKeys]
  | cons kv rest ih =>
    obtain ⟨k1, v1⟩ := kv
    by_cases h : k1 = k
    · subst h
      simp [sigLookup, sigKeys]
    · simp only [sigLookup, sigKeys, List.map_cons, List.mem_cons, if_neg h]
      rw [ih]
      constructor
      · intro hn hmem
        rcases hmem with hmem | hmem
        · exact h hmem.symm
        · exact hn hmem
      · intro hn hmem
        exact hn (Or.inr hmem)

/-- The spread of two duplicate-free objects is duplicate-free. -/
theorem keysNodup_jsSpread (storedSignals customSignals : SignalMap)
    (hs : keysNodup storedSignals) (hc : keysNodup customSignals) :
    keysNodup (jsSpread storedSignals customSignals) := by
  have hkeys := sigKeys_overlayMap customSignals storedSignals
  simp only [keysNodup, sigKeys] at hs hc hkeys ⊢
  unfold jsSpread
  rw [List.map_append, hkeys]
  apply List.Nodup.append hs
  · exact hc.sublist (List.Sublist.map Prod.fst (List.filter_sublist customSignals))
  · intro a ha hb
    rw [List.mem_map] at hb
    obtain ⟨⟨k1, v1⟩, hmem, hk⟩ := hb
    rw [List.mem_filter] at hmem
    have habs : sigLookup storedSignals k1 = none :=
      Option.isNone_iff_eq_none.mp hmem.2
    rw [sigLookup_eq_none_iff] at habs
    simp only [sigKeys] at habs
    have hk1 : k1 = a := hk
    subst hk1
    exact habs ha

/-- An absent key stays absent through the null-filtering and
stringification passes of the merge. -/
theorem sigLookup_updated_absent (p : String × SignalValue → Bool)
    (f : SignalValue → SignalValue) (m : SignalMap) (k : String)
    (h : k ∉ sigKeys m) :
    sigLookup ((m.filter p).map (fun kv => (kv.1, f kv.2))) k = none := by
  induction m with
  | nil => rfl
  | cons kv rest ih =>
    obtain ⟨k1, v1⟩ := kv
    simp only [sigKeys, List.map_cons, List.mem_cons, not_or] at h
    obtain ⟨h1, h2⟩ := h
    have h1s : k1 ≠ k := fun he => h1 he.symm
    have h2s : k ∉ sigKeys rest := by simpa [sigKeys] using h2
    cases hv : p (k1, v1) <;>
      simp [List.filter_cons, hv, sigLookup, h1s, ih h2s]

/-- Lookup in the null-filtered, stringified combined map, for
duplicate-free input: nulls are dropped, numbers stringified, strings
kept. -/
theorem sigLookup_updated (m : SignalMap) (h : keysNodup m) (k : String) :
    sigLookup ((m.filter (fun kv => !(SignalValue.isNull kv.2))).map
      (fun kv => (kv.1, stringifyValue kv.2))) k =
    match sigLookup m k with
    | some SignalValue.null => none
    | some v => some (stringifyValue v)
    | none => none := by
  induction m with
  | nil => rfl
  | cons kv rest ih =>
    obtain ⟨k1, v1⟩ := kv
    simp only [keysNodup, sigKeys, List.map_cons, List.nodup_cons] at h
    obtain ⟨hnot, hrest⟩ := h
    have hrest2 : keysNodup rest := by simpa [keysNodup, sigKeys] using hrest
    by_cases hk : k1 = k
    · subst hk
      cases v1 with
      | null =>
        have habs : k1 ∉ sigKeys rest := by simpa [sigKeys] using hnot
        have hfilter :
            ((k1, SignalValue.null) :: rest).filter
              (fun kv => !(SignalValue.isNull kv.2)) =
            rest.filter (fun kv => !(SignalValue.isNull kv.2)) := by
          simp [List.filter_cons, SignalValue.isNull]
        rw [hfilter,
          sigLookup_updated_absent (fun kv => !(SignalValue.isNull kv.2))
            stringifyValue rest k1 habs]
        simp [sigLookup]
      | str s =>
        simp [List.filter_cons, SignalValue.isNull, sigLookup, stringifyValue]
      | num n =>
        simp [List.filter_cons, SignalValue.isNull, sigLookup, stringifyValue]
    · cases hv : (!(SignalValue.isNull v1)) <;>
        simp [List.filter_cons, hv, sigLookup, hk, ih hrest2]

/-- Computation of `mergeCustomSignals`: an error exactly on an over-limit count,
otherwise the filtered, stringified spread. -/
theorem mergeCustomSignals_eq (customSignals storedSignals : SignalMap) :
    mergeCustomSignals customSignals storedSignals =
      if RC_CUSTOM_SIGNAL_MAX_ALLOWED_SIGNALS <
          mergedSignalCount customSignals storedSignals then
        Except.error
          (RcError.customSignalMax RC_CUSTOM_SIGNAL_MAX_ALLOWED_SIGNALS)
      else
        Except.ok (((jsSpread storedSignals customSignals).filter
            (fun kv => !(SignalValue.isNull kv.2))).map
          (fun kv => (kv.1, stringifyValue kv.2))) := by
  simp [mergeCustomSignals, mergedSignalCount]

/-- The function `mergeCustomSignals` returns the limit error exactly when the count of
the merged, null-filtered result strictly exceeds the limit. -/
theorem mergeCustomSignals_error_iff (customSignals storedSignals : SignalMap) :
    mergeCustomSignals customSignals storedSignals =
      Except.error
        (RcError.customSignalMax RC_CUSTOM_SIGNAL_MAX_ALLOWED_SIGNALS) ↔
    RC_CUSTOM_SIGNAL_MAX_ALLOWED_SIGNALS <
      mergedSignalCount customSignals storedSignals := by
  rw [mergeCustomSignals_eq]
  by_cases h : RC_CUSTOM_SIGNAL_MAX_ALLOWED_SIGNALS <
      mergedSignalCount customSignals storedSignals <;> simp [h]

/-- The function `mergeCustomSignals` succeeds exactly when the count of the merged,
null-filtered result is at most the limit. -/
theorem mergeCustomSignals_isOk_iff (customSignals storedSignals : SignalMap) :
    (∃ m, mergeCustomSignals customSignals storedSignals = Except.ok m) ↔
    mergedSignalCount customSignals storedSignals ≤
      RC_CUSTOM_SIGNAL_MAX_ALLOWED_SIGNALS := by
  rw [mergeCustomSignals_eq]
  by_cases h : RC_CUSTOM_SIGNAL_MAX_ALLOWED_SIGNALS <
      mergedSignalCount customSignals storedSignals
  · rw [if_pos h]
    constructor
    · rintro ⟨m, hm⟩
      exact Except.noConfusion hm
    · intro hle
      exact absurd h (Nat.not_lt.mpr hle)
  · rw [if_neg h]
    constructor
    · intro _
      exact Nat.not_lt.mp h
    · intro _
      exact ⟨_, rfl⟩

/-! ## Claim theorems -/

/-- C1: for every map of new custom signals and every map of previously
stored custom signals (duplicate-free, as JavaScript objects are), a
successful `mergeCustomSignals` returns the map obtained by overlaying the
new signals onto the stored ones with new values winning, dropping entries
whose resulting value is null, and replacing numeric values by their string
representation — stated per key against the spec-side `mergeLookupSpec`;
in particular, merging stored `{a: "1", b: "2"}` with new `{b: null, c: 3}`
yields `{a: "1", c: "3"}`. -/
theorem mergeCustomSignals_correct :
    (∀ (customSignals storedSignals out : SignalMap),
        keysNodup customSignals → keysNodup storedSignals →
        mergeCustomSignals customSignals storedSignals = Except.ok out →
        ∀ k, sigLookup out k = mergeLookupSpec customSignals storedSignals k) ∧
      mergeCustomSignals
          [("b", SignalValue.null), ("c", SignalValue.num 3)]
          [("a", SignalValue.str "1"), ("b", SignalValue.str "2")] =
        Except.ok [("a", SignalValue.str "1"), ("c", SignalValue.str "3")] := by
  constructor
  · intro customSignals storedSignals out hc hs hok k
    rw [mergeCustomSignals_eq] at hok
    by_cases h : RC_CUSTOM_SIGNAL_MAX_ALLOWED_SIGNALS <
        mergedSignalCount customSignals storedSignals
    · rw [if_pos h] at hok
      exact Except.noConfusion hok
    · rw [if_neg h] at hok
      obtain rfl : _ = out := Except.ok.inj hok
      rw [sigLookup_updated (jsSpread storedSignals customSignals)
        (keysNodup_jsSpread storedSignals customSignals hs hc) k,
        sigLookup_jsSpread]
      unfold mergeLookupSpec
      cases hcv : sigLookup customSignals k with
      | some v => cases v <;> simp [stringifyValue]
      | none =>
        cases hsv : sigLookup storedSignals k with
        | some v => cases v <;> simp [stringifyValue]
        | none => simp
  · rfl

/-- The only error `mergeCustomSignals` raises is the limit error, and only
on an over-limit count. -/
theorem mergeCustomSignals_error_inv (customSignals storedSignals : SignalMap)
    (e : RcError)
    (he : mergeCustomSignals customSignals storedSignals = Except.error e) :
    e = RcError.customSignalMax RC_CUSTOM_SIGNAL_MAX_ALLOWED_SIGNALS ∧
      RC_CUSTOM_SIGNAL_MAX_ALLOWED_SIGNALS <
        mergedSignalCount customSignals storedSignals := by
  rw [mergeCustomSignals_eq] at he
  by_cases h : RC_CUSTOM_SIGNAL_MAX_ALLOWED_SIGNALS <
      mergedSignalCount customSignals storedSignals
  · rw [if_pos h] at he
    exact ⟨(Except.error.inj he).symm, h⟩
  · rw [if_neg h] at he
    exact Except.noConfusion he

/-- Filtering for non-null values of an all-null map leaves nothing. -/
theorem filter_nonnull_of_all_null (m : SignalMap)
    (hnull : ∀ p ∈ m, p.2 = SignalValue.null) :
    m.filter (fun kv => !(SignalValue.isNull kv.2)) = [] := by
  induction m with
  | nil => rfl
  | cons kv rest ih =>
    have hkv := hnull kv (List.mem_cons_self kv rest)
    rw [List.filter_cons, hkv]
    simp only [SignalValue.isNull, Bool.not_true, Bool.false_eq_true,
      if_false]
    exact ih (fun p hp => hnull p (List.mem_cons_of_mem kv hp))

/-- Merging an all-null map into an empty store yields the empty map. -/
theorem mergeCustomSignals_all_null (customSignals : SignalMap)
    (hnull : ∀ p ∈ customSignals, p.2 = SignalValue.null) :
    mergeCustomSignals customSignals [] = Except.ok [] := by
  have hspread : jsSpread [] customSignals = customSignals := by
    simp [jsSpread, sigLookup]
  have hfilter := filter_nonnull_of_all_null customSignals hnull
  have hcount : mergedSignalCount customSignals [] = 0 := by
    rw [mergedSignalCount, hspread, hfilter]
    rfl
  rw [mergeCustomSignals_eq, hcount, if_neg (by simp), hspread, hfilter]
  rfl

/-- Unfolding of `createCompositeKey` into nested appends. -/
theorem createCompositeKey_eq (s : IndexedDbStorage) (key : FieldKey) :
    s.createCompositeKey key =
      s.appId ++ "," ++ (s.appName ++ "," ++ (s.nsName ++ "," ++ fieldStr key)) :=
  rfl

/-- The eight field-name literals are pairwise distinct. -/
theorem fieldStr_injective : ∀ F G : FieldKey, fieldStr F = fieldStr G → F = G := by
  intro F G h
  cases F <;> cases G <;> first
    | rfl
    | exact absurd h (by decide)

/-- Appending on the left of `String.append` is cancellative. -/
theorem string_append_left_cancel {p s t : String} (h : p ++ s = p ++ t) :
    s = t := by
  apply String.ext
  have hd := congrArg String.data h
  simp only [String.data_append] at hd
  exact List.append_cancel_left hd

/-- Two comma-free prefixes followed by a comma decompose a character list
uniquely. -/
theorem append_comma_inj :
    ∀ {l1 m1 : List Char}, ',' ∉ l1 → ',' ∉ m1 →
    ∀ {l2 m2 : List Char}, l1 ++ ',' :: l2 = m1 ++ ',' :: m2 →
      l1 = m1 ∧ l2 = m2 := by
  intro l1
  induction l1 with
  | nil =>
    intro m1 h1 h2 l2 m2 h
    cases m1 with
    | nil => simpa using h
    | cons c rest =>
      injection h with hc hrest
      exact absurd (hc ▸ List.mem_cons_self c rest) h2
  | cons a arest ih =>
    intro m1 h1 h2 l2 m2 h
    cases m1 with
    | nil =>
      injection h with hc hrest
      exact absurd (hc ▸ List.mem_cons_self a arest) h1
    | cons b brest =>
      injection h with hab hrest
      have h1a : ',' ∉ arest := fun hm => h1 (List.mem_cons_of_mem a hm)
      have h2b : ',' ∉ brest := fun hm => h2 (List.mem_cons_of_mem b hm)
      obtain ⟨he, ht⟩ := ih h1a h2b hrest
      exact ⟨by rw [hab, he], ht⟩

/-- Distinct fields of one instance yield distinct composite keys (field
name literals are pairwise distinct and share the instance prefix). -/
theorem createCompositeKey_field_ne (s : IndexedDbStorage) {F G : FieldKey}
    (h : F ≠ G) : s.createCompositeKey F ≠ s.createCompositeKey G := by
  intro he
  rw [createCompositeKey_eq, createCompositeKey_eq] at he
  have h1 := string_append_left_cancel he
  have h2 := string_append_left_cancel h1
  have h3 := string_append_left_cancel h2
  exact h (fieldStr_injective F G h3)

/-- Witness for C1: the general lookup property of the merge applied to
the concrete example of the spec at the removed key "b". -/
theorem mergeCustomSignals_correct_witness :
    sigLookup [("a", SignalValue.str "1"), ("c", SignalValue.str "3")] "b" =
      mergeLookupSpec [("b", SignalValue.null), ("c", SignalValue.num 3)]
        [("a", SignalValue.str "1"), ("b", SignalValue.str "2")] "b" :=
  mergeCustomSignals_correct.1
    [("b", SignalValue.null), ("c", SignalValue.num 3)]
    [("a", SignalValue.str "1"), ("b", SignalValue.str "2")]
    [("a", SignalValue.str "1"), ("c", SignalValue.str "3")]
    (by decide) (by decide) mergeCustomSignals_correct.2 "b"

/-- C2: `mergeCustomSignals` — and hence `setCustomSignals` on either
backend — fails with the CustomSignalLimitExceeded error exactly when the
entry count of the merged, null-filtered result strictly exceeds the
maximum allowed signal count; at exactly the maximum (or below) it
succeeds. -/
theorem customSignalLimit_iff (customSignals storedSignals : SignalMap) :
    (mergeCustomSignals customSignals storedSignals =
        Except.error
          (RcError.customSignalMax RC_CUSTOM_SIGNAL_MAX_ALLOWED_SIGNALS) ↔
      RC_CUSTOM_SIGNAL_MAX_ALLOWED_SIGNALS <
        mergedSignalCount customSignals storedSignals) ∧
    ((∃ m, mergeCustomSignals customSignals storedSignals = Except.ok m) ↔
      mergedSignalCount customSignals storedSignals ≤
        RC_CUSTOM_SIGNAL_MAX_ALLOWED_SIGNALS) ∧
    (∀ st : MemState,
      ((InMemoryStorage.setCustomSignals st customSignals).2 =
          Except.error
            (RcError.customSignalMax RC_CUSTOM_SIGNAL_MAX_ALLOWED_SIGNALS) ↔
        RC_CUSTOM_SIGNAL_MAX_ALLOWED_SIGNALS <
          mergedSignalCount customSignals
            (storedSignalsOf (st FieldKey.custom_signals)))) ∧
    (∀ (s : IndexedDbStorage) (db : DbState),
      ((s.setCustomSignals db customSignals).2 =
          Except.error
            (RcError.customSignalMax RC_CUSTOM_SIGNAL_MAX_ALLOWED_SIGNALS) ↔
        RC_CUSTOM_SIGNAL_MAX_ALLOWED_SIGNALS <
          mergedSignalCount customSignals
            (storedSignalsOf
              (s.getWithTransaction db FieldKey.custom_signals)))) := by
  refine ⟨mergeCustomSignals_error_iff customSignals storedSignals,
    mergeCustomSignals_isOk_iff customSignals storedSignals, ?_, ?_⟩
  · intro st
    cases hm : mergeCustomSignals customSignals
        (storedSignalsOf (st FieldKey.custom_signals)) with
    | error e =>
      obtain ⟨rfl, hlt⟩ := mergeCustomSignals_error_inv _ _ e hm
      simp [InMemoryStorage.setCustomSignals, hm, hlt]
    | ok m =>
      have hok : ¬ RC_CUSTOM_SIGNAL_MAX_ALLOWED_SIGNALS <
          mergedSignalCount customSignals
            (storedSignalsOf (st FieldKey.custom_signals)) := by
        intro hlt
        rw [(mergeCustomSignals_error_iff _ _).mpr hlt] at hm
        exact Except.noConfusion hm
      simp [InMemoryStorage.setCustomSignals, hm]
      exact Nat.not_lt.mp hok
  · intro s db
    cases hm : mergeCustomSignals customSignals
        (storedSignalsOf (s.getWithTransaction db FieldKey.custom_signals)) with
    | error e =>
      obtain ⟨rfl, hlt⟩ := mergeCustomSignals_error_inv _ _ e hm
      simp [IndexedDbStorage.setCustomSignals, hm, hlt]
    | ok m =>
      have hok : ¬ RC_CUSTOM_SIGNAL_MAX_ALLOWED_SIGNALS <
          mergedSignalCount customSignals
            (storedSignalsOf
              (s.getWithTransaction db FieldKey.custom_signals)) := by
        intro hlt
        rw [(mergeCustomSignals_error_iff _ _).mpr hlt] at hm
        exact Except.noConfusion hm
      simp [IndexedDbStorage.setCustomSignals, hm]
      exact Nat.not_lt.mp hok

/-- C3: when the merge of the new signals with the stored ones exceeds the
maximum signal count, `setCustomSignals` fails with the limit error and
the entire stored state — custom signals and every other field — is
returned exactly as it was, on both backends: the validation error
precedes any write. -/
theorem setCustomSignals_no_partial_write (customSignals : SignalMap) :
    (∀ st : MemState,
      RC_CUSTOM_SIGNAL_MAX_ALLOWED_SIGNALS <
          mergedSignalCount customSignals
            (storedSignalsOf (st FieldKey.custom_signals)) →
      InMemoryStorage.setCustomSignals st customSignals =
        (st, Except.error
          (RcError.customSignalMax RC_CUSTOM_SIGNAL_MAX_ALLOWED_SIGNALS))) ∧
    (∀ (s : IndexedDbStorage) (db : DbState),
      RC_CUSTOM_SIGNAL_MAX_ALLOWED_SIGNALS <
          mergedSignalCount customSignals
            (storedSignalsOf
              (s.getWithTransaction db FieldKey.custom_signals)) →
      s.setCustomSignals db customSignals =
        (db, Except.error
          (RcError.customSignalMax RC_CUSTOM_SIGNAL_MAX_ALLOWED_SIGNALS))) := by
  constructor
  · intro st hlt
    have herr := (mergeCustomSignals_error_iff _ _).mpr hlt
    simp [InMemoryStorage.setCustomSignals, herr]
  · intro s db hlt
    have herr := (mergeCustomSignals_error_iff _ _).mpr hlt
    simp [IndexedDbStorage.setCustomSignals, herr]

/-- Witness for C3: one hundred and one new signals on an empty store
exceed the limit and leave the store untouched. -/
theorem setCustomSignals_no_partial_write_witness :
    InMemoryStorage.setCustomSignals memInit overLimitSignals =
      (memInit, Except.error
        (RcError.customSignalMax RC_CUSTOM_SIGNAL_MAX_ALLOWED_SIGNALS)) :=
  (setCustomSignals_no_partial_write overLimitSignals).1 memInit (by decide)

/-- C5: a successful `setCustomSignals` returns exactly the merged signal
set `mergeCustomSignals(newSignals, stored-or-empty)` that it persisted,
and an immediately following `getCustomSignals` returns that same map, on
both backends. -/
theorem setCustomSignals_returns_merged (customSignals : SignalMap) :
    (∀ (st st2 : MemState) (out : SignalMap),
      InMemoryStorage.setCustomSignals st customSignals =
        (st2, Except.ok out) →
      mergeCustomSignals customSignals
          (storedSignalsOf (st FieldKey.custom_signals)) = Except.ok out ∧
      InMemoryStorage.getCustomSignals st2 =
        some (StorageValue.signals out)) ∧
    (∀ (s : IndexedDbStorage) (db db2 : DbState) (out : SignalMap),
      s.setCustomSignals db customSignals = (db2, Except.ok out) →
      mergeCustomSignals customSignals
          (storedSignalsOf (s.getWithTransaction db FieldKey.custom_signals)) =
        Except.ok out ∧
      s.getCustomSignals db2 = some (StorageValue.signals out)) := by
  constructor
  · intro st st2 out hset
    cases hm : mergeCustomSignals customSignals
        (storedSignalsOf (st FieldKey.custom_signals)) with
    | error e =>
      simp [InMemoryStorage.setCustomSignals, hm, Prod.mk.injEq] at hset
    | ok m =>
      simp only [InMemoryStorage.setCustomSignals, hm, Prod.mk.injEq] at hset
      obtain ⟨hst2, hout⟩ := hset
      obtain rfl : m = out := Except.ok.inj hout
      subst hst2
      refine ⟨rfl, ?_⟩
      simp [InMemoryStorage.getCustomSignals, InMemoryStorage.get,
        InMemoryStorage.set]
  · intro s db db2 out hset
    cases hm : mergeCustomSignals customSignals
        (storedSignalsOf (s.getWithTransaction db FieldKey.custom_signals)) with
    | error e =>
      simp [IndexedDbStorage.setCustomSignals, hm, Prod.mk.injEq] at hset
    | ok m =>
      simp only [IndexedDbStorage.setCustomSignals, hm, Prod.mk.injEq] at hset
      obtain ⟨hdb2, hout⟩ := hset
      obtain rfl : m = out := Except.ok.inj hout
      subst hdb2
      refine ⟨rfl, ?_⟩
      simp [IndexedDbStorage.getCustomSignals,
        IndexedDbStorage.getWithTransaction,
        IndexedDbStorage.setWithTransaction]

/-- Witness for C5: storing one signal in a fresh volatile store returns
the merged map and a following read yields it. -/
theorem setCustomSignals_returns_merged_witness :
    mergeCustomSignals [("a", SignalValue.str "1")]
        (storedSignalsOf (memInit FieldKey.custom_signals)) =
      Except.ok [("a", SignalValue.str "1")] ∧
    InMemoryStorage.getCustomSignals
        (InMemoryStorage.set memInit FieldKey.custom_signals
          (StorageValue.signals [("a", SignalValue.str "1")])) =
      some (StorageValue.signals [("a", SignalValue.str "1")]) :=
  (setCustomSignals_returns_merged [("a", SignalValue.str "1")]).1 memInit
    (InMemoryStorage.set memInit FieldKey.custom_signals
      (StorageValue.signals [("a", SignalValue.str "1")]))
    [("a", SignalValue.str "1")] rfl

/-- C6: for every supported field of the closed enumeration and every
storable value — in particular every value of the type the convenience
accessors pair with that field — `set(F, V)` followed by `get(F)` returns
`V`, on both the volatile and the persistent backend. -/
theorem set_get_roundtrip (F : FieldKey) (V : StorageValue) :
    (∀ st : MemState,
      InMemoryStorage.get (InMemoryStorage.set st F V) F = some V) ∧
    (∀ (s : IndexedDbStorage) (db : DbState),
      s.getWithTransaction (s.setWithTransaction db F V) F = some V) := by
  constructor
  · intro st
    simp [InMemoryStorage.get, InMemoryStorage.set]
  · intro s db
    simp [IndexedDbStorage.getWithTransaction,
      IndexedDbStorage.setWithTransaction]

/-- C7: `delete(F)` followed by `get(F)` returns absent, regardless of the
prior state and of whether anything was stored under `F`, on both
backends. -/
theorem delete_get_absent (F : FieldKey) :
    (∀ st : MemState,
      InMemoryStorage.get (InMemoryStorage.delete st F) F = none) ∧
    (∀ (s : IndexedDbStorage) (db : DbState),
      s.getWithTransaction (s.delete db F) F = none) := by
  constructor
  · intro st
    simp [InMemoryStorage.get, InMemoryStorage.delete]
  · intro s db
    simp [IndexedDbStorage.getWithTransaction, IndexedDbStorage.delete]

/-- C8: `get` on a field that has never been written succeeds with the
absent outcome rather than an error: a fresh store answers `none` for
every field, and a write to any other field leaves the answer unchanged,
on both backends. -/
theorem get_unwritten_absent :
    (∀ F : FieldKey, InMemoryStorage.get memInit F = none) ∧
    (∀ (s : IndexedDbStorage) (F : FieldKey),
      s.getWithTransaction dbInit F = none) ∧
    (∀ (st : MemState) (F G : FieldKey) (V : StorageValue), F ≠ G →
      InMemoryStorage.get (InMemoryStorage.set st G V) F =
        InMemoryStorage.get st F) ∧
    (∀ (s : IndexedDbStorage) (db : DbState) (F G : FieldKey)
      (V : StorageValue), F ≠ G →
      s.getWithTransaction (s.setWithTransaction db G V) F =
        s.getWithTransaction db F) := by
  refine ⟨fun F => rfl, fun s F => rfl, ?_, ?_⟩
  · intro st F G V h
    simp [InMemoryStorage.get, InMemoryStorage.set, h]
  · intro s db F G V h
    have hk := createCompositeKey_field_ne s h
    simp [IndexedDbStorage.getWithTransaction,
      IndexedDbStorage.setWithTransaction, hk]

/-- Witness for C8: after writing only `settings` in a fresh volatile
store, `active_config` still reads as absent. -/
theorem get_unwritten_absent_witness :
    InMemoryStorage.get
      (InMemoryStorage.set memInit FieldKey.settings (StorageValue.str "v"))
      FieldKey.active_config = none := by
  rw [get_unwritten_absent.2.2.1 memInit FieldKey.active_config
    FieldKey.settings (StorageValue.str "v") (by decide)]
  exact get_unwritten_absent.1 FieldKey.active_config

/-- C9: every value in a successful `mergeCustomSignals` result is a
string — no nulls and no numbers remain — so the persisted custom_signals
map holds only string values. -/
theorem mergeCustomSignals_values_strings
    (customSignals storedSignals out : SignalMap)
    (hok : mergeCustomSignals customSignals storedSignals = Except.ok out) :
    ∀ p ∈ out, ∃ s, p.2 = SignalValue.str s := by
  rw [mergeCustomSignals_eq] at hok
  by_cases h : RC_CUSTOM_SIGNAL_MAX_ALLOWED_SIGNALS <
      mergedSignalCount customSignals storedSignals
  · rw [if_pos h] at hok
    exact Except.noConfusion hok
  · rw [if_neg h] at hok
    obtain rfl : _ = out := Except.ok.inj hok
    intro p hp
    rw [List.mem_map] at hp
    obtain ⟨⟨k1, v1⟩, hmem, rfl⟩ := hp
    rw [List.mem_filter] at hmem
    cases v1 with
    | str s => exact ⟨s, rfl⟩
    | num n => exact ⟨toString n, rfl⟩
    | null => simp [SignalValue.isNull] at hmem

/-- Witness for C9: the numeric signal of the merged example is returned
as a string. -/
theorem mergeCustomSignals_values_strings_witness :
    ∃ s, (("c", SignalValue.str "3") : String × SignalValue).2 =
      SignalValue.str s :=
  mergeCustomSignals_values_strings [("c", SignalValue.num 3)] []
    [("c", SignalValue.str "3")] rfl ("c", SignalValue.str "3") (by simp)

/-- C10: `setCustomSignals` with an all-null (or empty) map on a store
holding no custom signals succeeds, persists the empty map and returns it;
and after any successful `setCustomSignals`, `getCustomSignals` returns
the persisted (possibly empty) map rather than the absent outcome, on both
backends. -/
theorem setCustomSignals_empty_present (customSignals : SignalMap) :
    ((∀ p ∈ customSignals, p.2 = SignalValue.null) →
      (∀ st : MemState, st FieldKey.custom_signals = none →
        InMemoryStorage.setCustomSignals st customSignals =
          (InMemoryStorage.set st FieldKey.custom_signals
            (StorageValue.signals []), Except.ok [])) ∧
      (∀ (s : IndexedDbStorage) (db : DbState),
        s.getWithTransaction db FieldKey.custom_signals = none →
        s.setCustomSignals db customSignals =
          (s.setWithTransaction db FieldKey.custom_signals
            (StorageValue.signals []), Except.ok []))) ∧
    (∀ (st st2 : MemState) (out : SignalMap),
      InMemoryStorage.setCustomSignals st customSignals =
        (st2, Except.ok out) →
      InMemoryStorage.getCustomSignals st2 =
        some (StorageValue.signals out)) ∧
    (∀ (s : IndexedDbStorage) (db db2 : DbState) (out : SignalMap),
      s.setCustomSignals db customSignals = (db2, Except.ok out) →
      s.getCustomSignals db2 = some (StorageValue.signals out)) := by
  refine ⟨fun hnull => ⟨?_, ?_⟩, ?_, ?_⟩
  · intro st hst
    have hm := mergeCustomSignals_all_null customSignals hnull
    simp [InMemoryStorage.setCustomSignals, hst, storedSignalsOf, hm]
  · intro s db hdb
    have hm := mergeCustomSignals_all_null customSignals hnull
    simp [IndexedDbStorage.setCustomSignals, hdb, storedSignalsOf, hm]
  · intro st st2 out hset
    cases hm : mergeCustomSignals customSignals
        (storedSignalsOf (st FieldKey.custom_signals)) with
    | error e =>
      simp [InMemoryStorage.setCustomSignals, hm, Prod.mk.injEq] at hset
    | ok m =>
      simp only [InMemoryStorage.setCustomSignals, hm, Prod.mk.injEq] at hset
      obtain ⟨hst2, hout⟩ := hset
      obtain rfl : m = out := Except.ok.inj hout
      subst hst2
      simp [InMemoryStorage.getCustomSignals, InMemoryStorage.get,
        InMemoryStorage.set]
  · intro s db db2 out hset
    cases hm : mergeCustomSignals customSignals
        (storedSignalsOf (s.getWithTransaction db FieldKey.custom_signals)) with
    | error e =>
      simp [IndexedDbStorage.setCustomSignals, hm, Prod.mk.injEq] at hset
    | ok m =>
      simp only [IndexedDbStorage.setCustomSignals, hm, Prod.mk.injEq] at hset
      obtain ⟨hdb2, hout⟩ := hset
      obtain rfl : m = out := Except.ok.inj hout
      subst hdb2
      simp [IndexedDbStorage.getCustomSignals,
        IndexedDbStorage.getWithTransaction,
        IndexedDbStorage.setWithTransaction]

/-- Witness for C10: an all-null signal map on a fresh volatile store
persists and returns the empty map. -/
theorem setCustomSignals_empty_present_witness :
    InMemoryStorage.setCustomSignals memInit [("x", SignalValue.null)] =
      (InMemoryStorage.set memInit FieldKey.custom_signals
        (StorageValue.signals []), Except.ok []) :=
  ((setCustomSignals_empty_present [("x", SignalValue.null)]).1
    (by decide)).1 memInit rfl

/-- C4 counterexample: two distinct (app id, app name, namespace, field)
tuples — with the comma delimiter inside the app id resp. app name —
produce the same composite key, refuting injectivity over all strings. -/
theorem createCompositeKey_not_injective :
    IndexedDbStorage.createCompositeKey ⟨"a,b", "c", "n"⟩ FieldKey.settings =
      IndexedDbStorage.createCompositeKey ⟨"a", "b,c", "n"⟩
        FieldKey.settings ∧
    ("a,b" : String) ≠ "a" := by
  constructor
  · rfl
  · decide

/-- C4 amended: `createCompositeKey` is injective provided the app id, app
name and namespace contain no comma (the delimiter `join()` inserts);
field names come from the closed enumeration and never contain a comma.
Stated contrapositively: equal composite keys force equal components. -/
theorem createCompositeKey_injective_of_commaFree :
    ∀ (s1 s2 : IndexedDbStorage) (f1 f2 : FieldKey),
      commaFree s1.appId → commaFree s1.appName → commaFree s1.nsName →
      commaFree s2.appId → commaFree s2.appName → commaFree s2.nsName →
      s1.createCompositeKey f1 = s2.createCompositeKey f2 →
      s1.appId = s2.appId ∧ s1.appName = s2.appName ∧
        s1.nsName = s2.nsName ∧ f1 = f2 := by
  rintro ⟨a1, b1, c1⟩ ⟨a2, b2, c2⟩ f1 f2 ha1 hb1 hc1 ha2 hb2 hc2 he
  rw [createCompositeKey_eq, createCompositeKey_eq] at he
  have hd := congrArg String.data he
  have hcm : ("," : String).data = [','] := rfl
  simp only [String.data_append, hcm, List.append_assoc,
    List.singleton_append] at hd
  obtain ⟨e1, hd⟩ := append_comma_inj ha1 ha2 hd
  obtain ⟨e2, hd⟩ := append_comma_inj hb1 hb2 hd
  obtain ⟨e3, hd⟩ := append_comma_inj hc1 hc2 hd
  exact ⟨String.ext e1, String.ext e2, String.ext e3,
    fieldStr_injective f1 f2 (String.ext hd)⟩

/-- Witness for C4 (amended): two comma-free instances with the same
components and field have, by the theorem, equal components. -/
theorem createCompositeKey_injective_of_commaFree_witness :
    ("app" : String) = "app" ∧ ("nm" : String) = "nm" ∧
      ("ns" : String) = "ns" ∧ FieldKey.settings = FieldKey.settings :=
  createCompositeKey_injective_of_commaFree ⟨"app", "nm", "ns"⟩
    ⟨"app", "nm", "ns"⟩ FieldKey.settings FieldKey.settings
    (by decide) (by decide) (by decide) (by decide) (by decide) (by decide)
    rfl
